import Mathlib

/-!
# PDSCH eNodeB example (lte/examples/pdsch_enodeb.c)

A shallow embedding of the resource allocator (prbset_to_bitmask, update_radl),
the control-plane listener (update_control) and the frame/subframe scheduler
loop of main, with theorems about the allocation bitmask, the control
commands and the subframe sequence handed to the sink.

Conventions of the embedding.
* C int values are mathematical integers; the `/` of C on int is
  `Int.tdiv` (truncation toward zero).  Counters that only move by one per
  subframe (prbset_orig, prbset_num, nf) are not wrapped.
* uint32_t values are natural numbers reduced modulo 2^32 where the code
  can leave the range (the mask, the MCS index).
* Where the C standard leaves a result undefined (a shift of an int by 32
  or more positions, atoi of digits beyond the int range) the result is a
  parameter of the model, so that nothing proved depends on it.
* The physical-layer library (liblte) is not part of the example: its
  functions are parameters of the model (structure Ext) and the results
  of its per-subframe calls are inputs of the run (structure SfInput).
-/

namespace PdschEnodeb

/-! ## Resource allocator: the resource-block-group bitmask -/

/-- The count by which the machine shifts for the C expression 0x1<<k on
a 32-bit int: k itself below 32.  From 32 on the shift is undefined in C;
the count then used is the parameter shift_count (k mod 32 on x86-64 and
AArch64; k itself, which leaves no bit in the word, on machines that
shift every bit out). -/
def shift_by (shift_count : Nat → Nat) (k : Nat) : Nat :=
  if k < 32 then k else shift_count k

/-- The body of the for loop of prbset_to_bitmask, unrolled by a fuel
counter: the state is the loop variable i, the bit position k and the mask.
The loop test is i < nof_prb/2; the mask is a uint32_t, so the value or-ed
into it is the 32-bit word of 0x1<<k. -/
def prbset_loop (shift_count : Nat → Nat) (nof_prb prbset_orig prbset_num : Int) :
    Nat → Int → Nat → Nat → Nat
  | 0, _, _, mask => mask
  | fuel + 1, i, k, mask =>
    if i < nof_prb.tdiv 2 then
      let mask1 :=
        if i ≥ prbset_orig - prbset_num.tdiv 2 ∧ i < prbset_orig + prbset_num.tdiv 2 then
          (mask ||| (0x1 <<< shift_by shift_count k)) % 2 ^ 32
        else mask
      prbset_loop shift_count nof_prb prbset_orig prbset_num fuel (i + 1) (k + 1) mask1
    else mask

/-- The function prbset_to_bitmask, with the globals cell.nof_prb, prbset_orig
and prbset_num as arguments.  The loop starts at i = -nof_prb/2, k = 0,
mask = 0; the fuel is the distance from the start to the bound nof_prb/2,
which is the exact number of iterations. -/
def prbset_to_bitmask (shift_count : Nat → Nat) (nof_prb prbset_orig prbset_num : Int) :
    Nat :=
  prbset_loop shift_count nof_prb prbset_orig prbset_num
    (nof_prb.tdiv 2 - (-nof_prb).tdiv 2).toNat ((-nof_prb).tdiv 2) 0 0

/-- Number of set bits of a 32-bit word. -/
def popcount32 (m : Nat) : Nat :=
  ((List.range 32).filter (fun j => m.testBit j)).length

/-! ## Data model -/

/-- Resource allocation types of a downlink grant; the example uses type 0.
A zeroed record holds the first constant. -/
inductive ra_type_t where
  | alloc_type0
  | alloc_type1
  | alloc_type2
deriving DecidableEq, Repr

/-- Modulation and transport-block size (field mcs of ra_pdsch_t). -/
structure ra_mcs_t where
  mod : Nat
  tbs : Nat
deriving DecidableEq, Repr

/-- The fields of the downlink allocation record ra_pdsch_t that update_radl
writes. -/
structure ra_pdsch_t where
  harq_process : Nat
  mcs_idx : Nat
  ndi : Nat
  rv_idx : Nat
  alloc_type : ra_type_t
  rbg_bitmask : Nat
  mcs : ra_mcs_t
deriving DecidableEq, Repr

/-- The record after bzero(ra_dl, sizeof(ra_pdsch_t)). -/
def ra_pdsch_zero : ra_pdsch_t :=
  { harq_process := 0, mcs_idx := 0, ndi := 0, rv_idx := 0,
    alloc_type := ra_type_t.alloc_type0, rbg_bitmask := 0, mcs := { mod := 0, tbs := 0 } }

/-- Modelled from the spec: the cell configuration lte_cell_t, whose
declaration is not in the example file.  The bandwidth nof_prb is a signed
resource-block count, as in the specification's "i = k - bandwidth/2
(integer center)", so that the loop of prbset_to_bitmask runs from
-nof_prb/2 to nof_prb/2 in signed arithmetic. -/
structure lte_cell_t where
  nof_prb : Int
  nof_ports : Nat
  id : Nat
deriving DecidableEq, Repr

/-- What the example file does not fix.  First the liblte routines called
by update_radl: P is the content of ra_prb_t, H the content of
pdsch_harq_t, and a routine that returns a status and writes through a
pointer returns the pair of both.  Then the two results the C standard
leaves undefined: the count used for a shift by 32 or more positions, and
the int that atoi returns for a line whose number is outside the int
range. -/
structure Ext (P H : Type) where
  shift_count : Nat → Nat
  atoi_out_of_range : List Nat → Int
  ra_prb_get_dl : ra_pdsch_t → Int → P
  ra_prb_get_re_dl : P → Int → Nat → Nat → P
  ra_mcs_from_idx_dl : Nat → Int → ra_mcs_t → Int × ra_mcs_t
  pdsch_harq_setup : H → ra_mcs_t → P → Int × H

/-- The process-wide variables the loop reads and writes (cell, udp_port,
cfi, mcs_idx, nof_frames, prbset_num, prbset_orig, harq_process) together
with the locals of main that live across subframes (ra_dl, send_data). -/
structure State (H : Type) where
  cell : lte_cell_t
  udp_port : Int
  cfi : Nat
  mcs_idx : Nat
  nof_frames : Int
  prbset_num : Int
  prbset_orig : Int
  harq_process : H
  ra_dl : ra_pdsch_t
  send_data : Bool
deriving DecidableEq, Repr

/-- What the outside world answers during one subframe: the result of
select on standard input, the line fgets returns (none for NULL), the
result of udpsource_read, and the status of pdcch_encode and pdsch_encode.
A line is the list of its bytes, the terminator included. -/
structure SfInput where
  select_n : Int
  fgets_line : Option (List Nat)
  udpsource_read : Int
  pdcch_encode : Int
  pdsch_encode : Int
deriving DecidableEq, Repr

/-- One subframe as handed to the sink: which writes went into the
resource grid between its clearing and the inverse transform.  The field
ctrl_error records that the message for a failed control update was
printed during the subframe. -/
structure Subframe (H : Type) where
  sf_idx : Nat
  pss : Bool
  sss : Option Nat
  refsignal : Bool
  mib_sfn : Nat
  pbch : Bool
  pcfich : Option Nat
  ctrl_error : Bool
  dci : Option ra_pdsch_t
  pdsch : Option (H × Nat)
deriving DecidableEq, Repr

def LEFT_KEY : Nat := 0x25
def RIGHT_KEY : Nat := 0x27
def UP_KEY : Nat := 0x26
def DOWN_KEY : Nat := 0x28

/-- Modelled from the spec: the constant NSUBFRAMES_X_FRAME of the liblte
headers, a frame being 10 consecutive subframes. -/
def NSUBFRAMES_X_FRAME : Nat := 10

/-! ## The C library function atoi -/

/-- White space of the C locale: space and the bytes 9 to 13. -/
def isspace (c : Nat) : Bool := c == 32 || (9 ≤ c && c ≤ 13)

/-- Decimal digits, bytes 48 to 57. -/
def isdigit (c : Nat) : Bool := 48 ≤ c && c ≤ 57

/-- The digit loop of atoi: accumulate decimal digits until the first byte
that is not one. -/
def atoi_digits : List Nat → Int → Int
  | [], acc => acc
  | c :: rest, acc =>
    if isdigit c then atoi_digits rest (acc * 10 + ((c : Int) - 48)) else acc

/-- The number a line denotes for atoi: skip white space, read an optional
sign, read digits.  Text without leading digits denotes 0. -/
def atoi_value (s : List Nat) : Int :=
  match s.dropWhile isspace with
  | 45 :: rest => - atoi_digits rest 0
  | 43 :: rest => atoi_digits rest 0
  | rest => atoi_digits rest 0

def INT_MIN : Int := -2147483648
def INT_MAX : Int := 2147483647

/-- The function atoi: the number the line denotes when an int can hold
it; otherwise the behaviour is undefined in C and the int returned is the
parameter out_of_range. -/
def atoi (out_of_range : List Nat → Int) (s : List Nat) : Int :=
  if INT_MIN ≤ atoi_value s ∧ atoi_value s ≤ INT_MAX then atoi_value s
  else out_of_range s

/-- Conversion of an int to uint32_t, as in the assignment
mcs_idx = atoi(input). -/
def to_uint32 (x : Int) : Nat := (x % 2 ^ 32).toNat

/-! ## Resource allocator and control-plane listener -/

/-- The function update_radl.  The record is zeroed and filled from the
globals, the resource blocks and the modulation are derived (the status of
ra_mcs_from_idx_dl is not looked at), then the HARQ process is set up; the
result is -1 when that fails and 0 otherwise.  All writes to the record
and to the HARQ process stay in place in both cases. -/
def update_radl {P H : Type} (E : Ext P H) (st : State H) : Int × State H :=
  let ra0 := ra_pdsch_zero
  let ra1 : ra_pdsch_t :=
    { ra0 with
      harq_process := 0
      mcs_idx := st.mcs_idx
      ndi := 0
      rv_idx := 0
      alloc_type := ra_type_t.alloc_type0
      rbg_bitmask :=
        prbset_to_bitmask E.shift_count st.cell.nof_prb st.prbset_orig st.prbset_num }
  let prb0 := E.ra_prb_get_dl ra1 st.cell.nof_prb
  let prb_alloc := E.ra_prb_get_re_dl prb0 st.cell.nof_prb 1
    (if st.cell.nof_prb < 10 then st.cfi + 1 else st.cfi)
  let ra2 : ra_pdsch_t :=
    { ra1 with mcs := (E.ra_mcs_from_idx_dl st.mcs_idx st.cell.nof_prb ra1.mcs).2 }
  let r := E.pdsch_harq_setup st.harq_process ra2.mcs prb_alloc
  if r.1 ≠ 0 then
    (-1, { st with ra_dl := ra2, harq_process := r.2 })
  else
    (0, { st with ra_dl := ra2, harq_process := r.2 })

/-- The switch of update_control on the first byte of the line (byte 0 for
an empty buffer). -/
def apply_command {P H : Type} (E : Ext P H) (input : List Nat) (st : State H) :
    State H :=
  let c := input.headD 0
  if c = LEFT_KEY then { st with prbset_orig := st.prbset_orig + 1 }
  else if c = RIGHT_KEY then { st with prbset_orig := st.prbset_orig - 1 }
  else if c = UP_KEY then { st with prbset_num := st.prbset_num + 1 }
  else if c = DOWN_KEY then
    if st.prbset_num > 0 then { st with prbset_num := st.prbset_num - 1 } else st
  else { st with mcs_idx := to_uint32 (atoi E.atoi_out_of_range input) }

/-- The function update_control: when select reports standard input ready
and fgets returns a line, the command is applied and update_radl is called;
a negative select result gives -1; in all other cases nothing happens. -/
def update_control {P H : Type} (E : Ext P H) (inp : SfInput) (st : State H) :
    Int × State H :=
  let n := inp.select_n
  if n = 1 then
    match inp.fgets_line with
    | some input => update_radl E (apply_command E input st)
    | none => (0, st)
  else if n < 0 then (-1, st)
  else (0, st)

/-! ## Frame/subframe scheduler -/

/-- The grid after bzero(sf_buffer, ...), for subframe sf_idx. -/
def empty_grid (H : Type) (sf_idx : Nat) : Subframe H :=
  { sf_idx := sf_idx, pss := false, sss := none, refsignal := false, mib_sfn := 0,
    pbch := false, pcfich := none, ctrl_error := false, dci := none, pdsch := none }

/-- The body of the subframe loop of main, from the clearing of the grid to
the hand-over to the sink; none stands for exit(-1). -/
def subframe {P H : Type} (E : Ext P H) (inp : SfInput) (st : State H)
    (sf_idx sfn : Nat) : Option (Subframe H × State H) :=
  let g0 := empty_grid H sf_idx
  let g1 := if sf_idx = 0 ∨ sf_idx = 5 then
      { g0 with pss := true, sss := some (if sf_idx ≠ 0 then 5 else 0) }
    else g0
  let g2 := { g1 with refsignal := true }
  let g3 := { g2 with mib_sfn := sfn }
  let g4 := if sf_idx = 0 then { g3 with pbch := true } else g3
  let g5 := { g4 with pcfich := some st.cfi }
  let uc := update_control E inp st
  let g6 := if uc.1 ≠ 0 then { g5 with ctrl_error := true } else g5
  let st1 := uc.2
  let rd : Option Bool :=
    if sf_idx ≠ 0 then
      if st1.udp_port > 0 then
        if inp.udpsource_read > 0 then some true
        else if inp.udpsource_read = 0 then some false
        else none
      else some true
    else some false
  match rd with
  | none => none
  | some send_data =>
    let st2 := { st1 with send_data := send_data }
    if send_data then
      if inp.pdcch_encode ≠ 0 then none
      else
        let g7 := { g6 with dci := some st2.ra_dl }
        if inp.pdsch_encode ≠ 0 then none
        else
          let g8 := { g7 with pdsch := some (st2.harq_process, st2.ra_dl.rv_idx) }
          some (g8, st2)
    else some (g6, st2)

/-- Control points of the loop nest of main. -/
inductive Pc where
  | outer_test
  | inner_test
  | exited (code : Int)
deriving DecidableEq, Repr

/-- The loop variables of main and the list of subframes handed to the
sink so far. -/
structure Machine (H : Type) where
  pc : Pc
  st : State H
  nf : Int
  sf_idx : Nat
  sfn : Nat
  sink : List (Subframe H)
deriving DecidableEq, Repr

/-- The loop condition nf < nof_frames || nof_frames == -1. -/
def more_frames {H : Type} (m : Machine H) : Prop :=
  m.nf < m.st.nof_frames ∨ m.st.nof_frames = -1

instance {H : Type} (m : Machine H) : Decidable (more_frames m) := by
  unfold more_frames; exact inferInstance

/-- One move of the loop nest.  At the test of the while loop the for loop
is entered with sf_idx = 0, or the program ends with exit(0).  At the test
of the for loop either one subframe is produced, appended to the sink and
nf and sf_idx are incremented, or the loop is left and sfn advances modulo
1024.  The inputs of the subframe started when nf subframes are done are
env nf. -/
def step {P H : Type} (E : Ext P H) (env : Nat → SfInput) (m : Machine H) : Machine H :=
  match m.pc with
  | Pc.outer_test =>
    if more_frames m then { m with pc := Pc.inner_test, sf_idx := 0 }
    else { m with pc := Pc.exited 0 }
  | Pc.inner_test =>
    if m.sf_idx < NSUBFRAMES_X_FRAME ∧ more_frames m then
      match subframe E (env m.nf.toNat) m.st m.sf_idx m.sfn with
      | none => { m with pc := Pc.exited (-1) }
      | some (sf, st1) =>
        { m with st := st1, sink := m.sink ++ [sf], nf := m.nf + 1, sf_idx := m.sf_idx + 1 }
    else { m with pc := Pc.outer_test, sfn := (m.sfn + 1) % 1024 }
  | Pc.exited _ => m

/-- The machine after a number of moves. -/
def run {P H : Type} (E : Ext P H) (env : Nat → SfInput) : Nat → Machine H → Machine H
  | 0, m => m
  | fuel + 1, m => run E env fuel (step E env m)

/-- The state of main when the while loop is reached: nf = 0, sfn = 0,
send_data = false, nothing sent. -/
def loop_start {H : Type} (st : State H) : Machine H :=
  { pc := Pc.outer_test, st := { st with send_data := false }, nf := 0, sf_idx := 0,
    sfn := 0, sink := [] }

/-- The part of main from the first update_radl to the loop: a failing
first allocation ends the program with exit(-1). -/
def main_start {P H : Type} (E : Ext P H) (st : State H) : Machine H :=
  let r := update_radl E st
  if r.1 ≠ 0 then { loop_start r.2 with pc := Pc.exited (-1) } else loop_start r.2

/-- The start-up values of the globals (cell of 6 resource blocks, MCS
index 12, prbset_num = 1, prbset_orig = 0, cfi = 1) with the frame count
and the UDP port as given on the command line. -/
def initial_state {H : Type} (h0 : H) (nof_frames udp_port : Int) : State H :=
  { cell := { nof_prb := 6, nof_ports := 1, id := 1 }, udp_port := udp_port, cfi := 1,
    mcs_idx := 12, nof_frames := nof_frames, prbset_num := 1, prbset_orig := 0,
    harq_process := h0, ra_dl := ra_pdsch_zero, send_data := false }

/-- The data source reports a transport block: a positive read on the
network variant, always on the synthetic one. -/
def present (udp_port : Int) (inp : SfInput) : Bool :=
  if udp_port > 0 then decide (inp.udpsource_read > 0) else true

/-- No fatal event in a subframe: no read error on the UDP socket and no
failure of the two encoders. -/
def benign (udp_port : Int) (inp : SfInput) : Prop :=
  (udp_port > 0 → 0 ≤ inp.udpsource_read) ∧ inp.pdcch_encode = 0 ∧ inp.pdsch_encode = 0

instance (udp_port : Int) (inp : SfInput) : Decidable (benign udp_port inp) := by
  unfold benign; exact inferInstance

/-- Invariant of the loop nest for a run started from loop_start st0: the
frame count and the port are those of st0, nf counts the subframes in the
sink, subframe number n of the sink is the result of the loop body for
index n mod 10, frame number (n div 10) mod 1024 and the inputs env n, and
at the two loop tests the sink length, sf_idx and sfn agree. -/
def loop_inv {P H : Type} (E : Ext P H) (env : Nat → SfInput) (st0 : State H)
    (m : Machine H) : Prop :=
  m.st.nof_frames = st0.nof_frames ∧ m.st.udp_port = st0.udp_port ∧
  m.nf = (m.sink.length : Int) ∧
  (∀ (n : Nat) (r : Subframe H), m.sink[n]? = some r →
    ∃ st st1 : State H, st.udp_port = st0.udp_port ∧
      subframe E (env n) st (n % 10) ((n / 10) % 1024) = some (r, st1)) ∧
  (m.pc = Pc.inner_test →
    m.sf_idx ≤ 10 ∧ (m.sf_idx = 0 → more_frames m) ∧
    ∃ F : Nat, m.sink.length = 10 * F + m.sf_idx ∧ m.sfn = F % 1024) ∧
  (m.pc = Pc.outer_test →
    (∃ F : Nat, m.sink.length = 10 * F ∧ m.sfn = F % 1024) ∨ ¬ more_frames m)

/-- Bound on the number of moves left before exit(0) when the frame count
is N and no subframe aborts. -/
def loop_variant {H : Type} (N : Nat) (m : Machine H) : Nat :=
  match m.pc with
  | Pc.outer_test => 3 * (N - m.nf.toNat) + 1
  | Pc.inner_test => 3 * (N - m.nf.toNat) + (if m.sf_idx = 0 then 0 else 2)
  | Pc.exited _ => 0

/-! ## A simulated library for concrete runs -/

/-- Modelled from the spec: a stand-in for the liblte routines behind
update_radl, which are not in the example file.  The resource-block record
keeps the bitmask and the number of control symbols; an MCS index below 29
gives a modulation order and a size, any other index is an input error
that leaves the record as it is; the HARQ set-up fails for an unset
modulation and otherwise stores what it was given.  The undefined results
are those of glibc on x86-64: a shift count is taken modulo 32 and atoi of
a number beyond the int range gives -1. -/
def simExt : Ext (Nat × Nat) (Option (ra_mcs_t × (Nat × Nat))) :=
  { shift_count := fun k => k % 32
    atoi_out_of_range := fun _ => -1
    ra_prb_get_dl := fun ra _ => (ra.rbg_bitmask, 0)
    ra_prb_get_re_dl := fun p _ _ nof_ctrl => (p.1, nof_ctrl)
    ra_mcs_from_idx_dl := fun idx nof_prb mcs =>
      if idx < 29 then
        (0, { mod := if idx < 10 then 2 else if idx < 17 then 4 else 6,
              tbs := 8 * (idx + 1) * nof_prb.toNat })
      else (-1, mcs)
    pdsch_harq_setup := fun h mcs p =>
      if mcs.mod = 0 then (-1, h) else (0, some (mcs, p)) }

/-- Inputs of a quiet subframe: no control input, no datagram, encoders
succeed. -/
def quiet : SfInput :=
  { select_n := 0, fgets_line := none, udpsource_read := 0, pdcch_encode := 0,
    pdsch_encode := 0 }

/-- A control line arriving in the subframe. -/
def line_input (line : List Nat) : SfInput :=
  { quiet with select_n := 1, fgets_line := some line }

/-- A failing poll of standard input. -/
def poll_failure : SfInput := { quiet with select_n := -1 }

/-- The machine of the simulated library at the loop of main, started with
the default globals. -/
def sim_start (nof_frames udp_port : Int) : Machine (Option (ra_mcs_t × (Nat × Nat))) :=
  main_start simExt (initial_state none nof_frames udp_port)

/-- The state at the loop of main in the simulated run. -/
def sim_state (nof_frames udp_port : Int) : State (Option (ra_mcs_t × (Nat × Nat))) :=
  (sim_start nof_frames udp_port).st

/-- Inputs of a run in which the poll of standard input fails during
subframe 0 and nothing else happens. -/
def poll_failure_in_subframe_0 : Nat → SfInput :=
  fun n => if n = 0 then poll_failure else quiet

/-- Subframe 12 of the quiet simulated run with synthetic data: index 2 of
the second frame, carrying the control message and the shared channel of
the start-up allocation. -/
def sim_subframe_12 : Subframe (Option (ra_mcs_t × (Nat × Nat))) :=
  { sf_idx := 2, pss := false, sss := none, refsignal := true, mib_sfn := 1, pbch := false,
    pcfich := some 1, ctrl_error := false,
    dci := some { harq_process := 0, mcs_idx := 12, ndi := 0, rv_idx := 0,
                  alloc_type := ra_type_t.alloc_type0, rbg_bitmask := 0,
                  mcs := { mod := 4, tbs := 624 } },
    pdsch := some (some ({ mod := 4, tbs := 624 }, (0, 2)), 0) }

/-- Subframe 5 of the quiet simulated run fed from the network, in which
no datagram arrives. -/
def sim_subframe_5_no_data : Subframe (Option (ra_mcs_t × (Nat × Nat))) :=
  { sf_idx := 5, pss := true, sss := some 5, refsignal := true, mib_sfn := 0, pbch := false,
    pcfich := some 1, ctrl_error := false, dci := none, pdsch := none }

/-- Inputs of a run in which the line "99" (an MCS index the simulated
library rejects) arrives during subframe 1 and nothing else happens. -/
def invalid_mcs_in_subframe_1 : Nat → SfInput :=
  fun n => if n = 1 then line_input [57, 57, 10] else quiet

/-! ## Theorems: the allocation bitmask -/

theorem testBit_lt32 {m j : Nat} (hm : m < 2 ^ 32) (hj : m.testBit j = true) : j < 32 := by
  by_contra hge
  have h1 : m < 2 ^ j := lt_of_lt_of_le hm (Nat.pow_le_pow_right (by norm_num) (by omega))
  rw [Nat.testBit_lt_two_pow h1] at hj
  exact Bool.noConfusion hj

/-- Loop invariant of prbset_loop: the mask stays a 32-bit word, and bit j is
set at the end iff it was set before or some later iteration (position p,
loop variable i + (p - k)) passes the loop test and the range test and
shifts the one to bit j. -/
theorem prbset_loop_spec (sc : Nat → Nat) (B c w : Int) :
    ∀ (fuel : Nat) (i : Int) (k mask : Nat), mask < 2 ^ 32 →
      prbset_loop sc B c w fuel i k mask < 2 ^ 32 ∧
      ∀ j : Nat, ((prbset_loop sc B c w fuel i k mask).testBit j = true ↔
        (mask.testBit j = true ∨
          (j < 32 ∧ ∃ p : Nat, k ≤ p ∧ p < k + fuel ∧ i + ((p : Int) - k) < B.tdiv 2 ∧
            c - w.tdiv 2 ≤ i + ((p : Int) - k) ∧ i + ((p : Int) - k) < c + w.tdiv 2 ∧
            shift_by sc p = j))) := by
  intro fuel
  induction fuel with
  | zero =>
    intro i k mask hm
    refine ⟨by simpa [prbset_loop] using hm, fun j => ?_⟩
    simp only [prbset_loop]
    constructor
    · intro h; exact Or.inl h
    · rintro (h | ⟨_, p, h1, h2, _⟩)
      · exact h
      · omega
  | succ n ih =>
    intro i k mask hm
    by_cases hi : i < B.tdiv 2
    · by_cases hs : i ≥ c - w.tdiv 2 ∧ i < c + w.tdiv 2
      · have hm1 : (mask ||| (0x1 <<< shift_by sc k)) % 2 ^ 32 < 2 ^ 32 :=
          Nat.mod_lt _ (by norm_num)
        have hstep : prbset_loop sc B c w (n + 1) i k mask =
            prbset_loop sc B c w n (i + 1) (k + 1)
              ((mask ||| (0x1 <<< shift_by sc k)) % 2 ^ 32) := by
          simp only [prbset_loop, if_pos hi, if_pos hs]
        rw [hstep]
        obtain ⟨hlt, hbit⟩ := ih (i + 1) (k + 1) _ hm1
        refine ⟨hlt, fun j => ?_⟩
        rw [hbit j]
        have hb : ((mask ||| (0x1 <<< shift_by sc k)) % 2 ^ 32).testBit j = true ↔
            (j < 32 ∧ (mask.testBit j = true ∨ shift_by sc k = j)) := by
          rw [Nat.testBit_mod_two_pow, Nat.testBit_or, Nat.one_shiftLeft, Nat.testBit_two_pow]
          simp
        rw [hb]
        constructor
        · rintro (⟨h32, h | h⟩ | ⟨h32, p, hp1, hp2, ha, hb1, hb2, he⟩)
          · exact Or.inl h
          · refine Or.inr ⟨h32, k, le_refl _, by omega, ?_, ?_, ?_, h⟩ <;> simp <;> omega
          · push_cast at ha hb1 hb2
            refine Or.inr ⟨h32, p, by omega, by omega, ?_, ?_, ?_, he⟩ <;> omega
        · rintro (h | ⟨h32, p, hp1, hp2, ha, hb1, hb2, he⟩)
          · exact Or.inl ⟨testBit_lt32 hm h, Or.inl h⟩
          · by_cases hpk : p = k
            · subst hpk
              exact Or.inl ⟨h32, Or.inr he⟩
            · refine Or.inr ⟨h32, p, by omega, by omega, ?_, ?_, ?_, he⟩ <;>
                push_cast <;> omega
      · have hstep : prbset_loop sc B c w (n + 1) i k mask =
            prbset_loop sc B c w n (i + 1) (k + 1) mask := by
          simp only [prbset_loop, if_pos hi, if_neg hs]
        rw [hstep]
        obtain ⟨hlt, hbit⟩ := ih (i + 1) (k + 1) mask hm
        refine ⟨hlt, fun j => ?_⟩
        rw [hbit j]
        constructor
        · rintro (h | ⟨h32, p, hp1, hp2, ha, hb1, hb2, he⟩)
          · exact Or.inl h
          · push_cast at ha hb1 hb2
            refine Or.inr ⟨h32, p, by omega, by omega, ?_, ?_, ?_, he⟩ <;> omega
        · rintro (h | ⟨h32, p, hp1, hp2, ha, hb1, hb2, he⟩)
          · exact Or.inl h
          · by_cases hpk : p = k
            · subst hpk
              exfalso
              apply hs
              simp only [sub_self, add_zero] at hb1 hb2
              exact ⟨hb1, hb2⟩
            · refine Or.inr ⟨h32, p, by omega, by omega, ?_, ?_, ?_, he⟩ <;>
                push_cast <;> omega
    · have hstep : prbset_loop sc B c w (n + 1) i k mask = mask := by
        simp only [prbset_loop, if_neg hi]
      rw [hstep]
      refine ⟨hm, fun j => ?_⟩
      constructor
      · intro h; exact Or.inl h
      · rintro (h | ⟨_, p, hp1, _, ha, _, _, _⟩)
        · exact h
        · exfalso; apply hi; omega

/-- Which bits of the mask are set: bit j is set iff j is below 32 and some
position p below twice the half bandwidth, with p - nof_prb/2 in the
selected range, is shifted to bit j. -/
theorem prbset_to_bitmask_bit (sc : Nat → Nat) (B c w : Int) (j : Nat) :
    (prbset_to_bitmask sc B c w).testBit j = true ↔
      (j < 32 ∧ ∃ p : Nat, (p : Int) < 2 * B.tdiv 2 ∧
        c - w.tdiv 2 ≤ (p : Int) - B.tdiv 2 ∧ (p : Int) - B.tdiv 2 < c + w.tdiv 2 ∧
        shift_by sc p = j) := by
  unfold prbset_to_bitmask
  rw [(prbset_loop_spec sc B c w _ _ 0 0 (by norm_num)).2 j]
  have hneg : (-B).tdiv 2 = -(B.tdiv 2) := Int.neg_tdiv B 2
  rw [hneg]
  simp only [Nat.zero_testBit, Bool.false_eq_true, false_or, Nat.zero_le, true_and,
    Nat.cast_zero, sub_zero, zero_add]
  constructor
  · rintro ⟨h32, p, h1, h2, h3, h4, h5⟩
    exact ⟨h32, p, by omega, by omega, by omega, h5⟩
  · rintro ⟨h32, p, h1, h2, h3, h4⟩
    exact ⟨h32, p, by omega, by omega, by omega, by omega, h4⟩

theorem prbset_to_bitmask_congr (sc : Nat → Nat) (B c w w' : Int)
    (h : w.tdiv 2 = w'.tdiv 2) :
    prbset_to_bitmask sc B c w = prbset_to_bitmask sc B c w' := by
  apply Nat.eq_of_testBit_eq
  intro j
  rw [Bool.eq_iff_iff, prbset_to_bitmask_bit, prbset_to_bitmask_bit, h]

theorem prbset_to_bitmask_zero_of_half (sc : Nat → Nat) (B c w : Int)
    (h : w.tdiv 2 = 0) : prbset_to_bitmask sc B c w = 0 := by
  apply Nat.eq_of_testBit_eq
  intro j
  rw [Nat.zero_testBit]
  cases hb : (prbset_to_bitmask sc B c w).testBit j with
  | false => rfl
  | true =>
    rw [prbset_to_bitmask_bit, h] at hb
    obtain ⟨_, p, _, h2, h3, _⟩ := hb
    omega

theorem tdiv_sub_tmod (w : Int) : (w - w.tmod 2).tdiv 2 = w.tdiv 2 := by
  have h := Int.tmod_add_tdiv w 2
  have h2 : w - w.tmod 2 = 2 * w.tdiv 2 := by omega
  rw [h2, Int.mul_tdiv_cancel_left _ (by norm_num)]

theorem popcount32_prbset_le (sc : Nat → Nat) (B c w : Int) :
    popcount32 (prbset_to_bitmask sc B c w) ≤ (2 * w.tdiv 2).toNat := by
  unfold popcount32
  set L := (List.range 32).filter (fun j => (prbset_to_bitmask sc B c w).testBit j) with hL
  have hnd : L.Nodup := (List.nodup_range 32).filter _
  have hsub : L.toFinset ⊆
      (Finset.Ico (c - w.tdiv 2) (c + w.tdiv 2)).image
        (fun x : Int => shift_by sc (x + B.tdiv 2).toNat) := by
    intro j hj
    rw [List.mem_toFinset, hL, List.mem_filter] at hj
    obtain ⟨_, p, _, h2, h3, h4⟩ := (prbset_to_bitmask_bit sc B c w j).1 hj.2
    rw [Finset.mem_image]
    refine ⟨(p : Int) - B.tdiv 2, Finset.mem_Ico.2 ⟨h2, h3⟩, ?_⟩
    simp only [sub_add_cancel, Int.toNat_ofNat]
    exact h4
  have hcard := (Finset.card_le_card hsub).trans Finset.card_image_le
  rw [List.toFinset_card_of_nodup hnd, Int.card_Ico] at hcard
  have : c + w.tdiv 2 - (c - w.tdiv 2) = 2 * w.tdiv 2 := by ring
  rw [this] at hcard
  exact hcard

/-- C1, as stated, fails: for a cell of 15 resource blocks, center 7 and
width 2, index 14 satisfies 6 ≤ 14 - 7 < 8, yet bit 14 of the mask is
clear: the loop visits only the 14 positions 0..13, and the mask is 8192,
bit 13 alone. -/
theorem c1_counterexample :
    (¬ (∀ (sc : Nat → Nat) (B c w : Int) (k : Nat), 0 ≤ w → w ≤ B → (k : Int) < B →
        ((prbset_to_bitmask sc B c w).testBit k = true ↔
          (c - w.tdiv 2 ≤ (k : Int) - B.tdiv 2 ∧ (k : Int) - B.tdiv 2 < c + w.tdiv 2)))) ∧
    (((7 : Int) - (2 : Int).tdiv 2 ≤ ((14 : Nat) : Int) - (15 : Int).tdiv 2 ∧
        ((14 : Nat) : Int) - (15 : Int).tdiv 2 < 7 + (2 : Int).tdiv 2) ∧
      prbset_to_bitmask simExt.shift_count 15 7 2 = 8192 ∧
      (prbset_to_bitmask simExt.shift_count 15 7 2).testBit 14 = false) := by
  refine ⟨?_, by decide, by decide, by decide⟩
  intro h
  have h1 := (h (fun k => k % 32) 15 7 2 14 (by decide) (by decide) (by decide)).2
    (by decide)
  exact absurd h1 (by decide)

/-- C1, amended: for every bandwidth B whose loop stays within the 32-bit
word, 2 * (B / 2) ≤ 32, every center c and width w, and every bit index k
below 2 * (B / 2) (the positions the loop visits), bit k of the mask is
set iff c - w/2 ≤ k - B/2 < c + w/2, with truncating division; every bit at
or above 2 * (B / 2) is clear; and width 0 gives the mask 0.  This holds
whatever an undefined shift would give, since none occurs. -/
theorem c1_bitmask_bits (sc : Nat → Nat) (B c w : Int) (k : Nat)
    (hB : 2 * B.tdiv 2 ≤ 32) (hk : (k : Int) < 2 * B.tdiv 2) :
    ((prbset_to_bitmask sc B c w).testBit k = true ↔
      (c - w.tdiv 2 ≤ (k : Int) - B.tdiv 2 ∧ (k : Int) - B.tdiv 2 < c + w.tdiv 2)) ∧
    (∀ j : Nat, 2 * B.tdiv 2 ≤ (j : Int) →
      (prbset_to_bitmask sc B c w).testBit j = false) ∧
    prbset_to_bitmask sc B c 0 = 0 := by
  have hshift : ∀ p : Nat, (p : Int) < 2 * B.tdiv 2 → shift_by sc p = p := by
    intro p hp
    unfold shift_by
    rw [if_pos (by omega)]
  refine ⟨?_, ?_, ?_⟩
  · rw [prbset_to_bitmask_bit]
    constructor
    · rintro ⟨_, p, h1, h2, h3, h4⟩
      rw [hshift p h1] at h4
      subst h4
      exact ⟨h2, h3⟩
    · rintro ⟨h2, h3⟩
      exact ⟨by omega, k, hk, h2, h3, hshift k hk⟩
  · intro j hj
    cases hb : (prbset_to_bitmask sc B c w).testBit j with
    | false => rfl
    | true =>
      rw [prbset_to_bitmask_bit] at hb
      obtain ⟨_, p, h1, _, _, h4⟩ := hb
      rw [hshift p h1] at h4
      omega
  · exact prbset_to_bitmask_zero_of_half sc B c 0 (by decide)

/-- Witness of C1 (amended) on a cell of 15 resource blocks, center 7,
width 2, bit 13. -/
theorem c1_bitmask_bits_witness :
    (2 * (15 : Int).tdiv 2 ≤ 32 ∧ ((13 : Nat) : Int) < 2 * (15 : Int).tdiv 2) ∧
    (((prbset_to_bitmask simExt.shift_count 15 7 2).testBit 13 = true ↔
      ((7 : Int) - (2 : Int).tdiv 2 ≤ ((13 : Nat) : Int) - (15 : Int).tdiv 2 ∧
        ((13 : Nat) : Int) - (15 : Int).tdiv 2 < 7 + (2 : Int).tdiv 2)) ∧
    (∀ j : Nat, 2 * (15 : Int).tdiv 2 ≤ (j : Int) →
      (prbset_to_bitmask simExt.shift_count 15 7 2).testBit j = false) ∧
    prbset_to_bitmask simExt.shift_count 15 7 0 = 0) :=
  ⟨⟨by decide, by decide⟩,
    c1_bitmask_bits simExt.shift_count 15 7 2 13 (by decide) (by decide)⟩

/-- C10: for every bandwidth, center c and width w (in particular w ≥ 0),
and whatever count an undefined shift uses, the mask for width w equals the
mask for width w - (w mod 2), it has at most 2 * (w / 2) bits set, and
width 1 gives the mask 0 for every center. -/
theorem c10_odd_width_rounds_down (sc : Nat → Nat) (B c w : Int) :
    prbset_to_bitmask sc B c w = prbset_to_bitmask sc B c (w - w.tmod 2) ∧
    popcount32 (prbset_to_bitmask sc B c w) ≤ (2 * w.tdiv 2).toNat ∧
    prbset_to_bitmask sc B c 1 = 0 :=
  ⟨prbset_to_bitmask_congr sc B c w _ (tdiv_sub_tmod w).symm, popcount32_prbset_le sc B c w,
    prbset_to_bitmask_zero_of_half sc B c 1 (by decide)⟩

/-! ## Theorems: atoi -/

/-- The function update_radl writes only the allocation record and the HARQ
process. -/
theorem update_radl_frame {P H : Type} (E : Ext P H) (st : State H) :
    (update_radl E st).2.cell = st.cell ∧ (update_radl E st).2.udp_port = st.udp_port ∧
    (update_radl E st).2.cfi = st.cfi ∧ (update_radl E st).2.mcs_idx = st.mcs_idx ∧
    (update_radl E st).2.nof_frames = st.nof_frames ∧
    (update_radl E st).2.prbset_num = st.prbset_num ∧
    (update_radl E st).2.prbset_orig = st.prbset_orig := by
  unfold update_radl
  simp only []
  split_ifs <;> exact ⟨rfl, rfl, rfl, rfl, rfl, rfl, rfl⟩

/-- A command changes neither the cell, the port, the CFI nor the frame
count. -/
theorem apply_command_frame {P H : Type} (E : Ext P H) (line : List Nat) (st : State H) :
    (apply_command E line st).cell = st.cell ∧ (apply_command E line st).udp_port = st.udp_port ∧
    (apply_command E line st).cfi = st.cfi ∧
    (apply_command E line st).nof_frames = st.nof_frames := by
  unfold apply_command
  simp only []
  split_ifs <;> exact ⟨rfl, rfl, rfl, rfl⟩

/-- The function update_control leaves the cell, the port, the CFI and the
frame count alone. -/
theorem update_control_frame {P H : Type} (E : Ext P H) (inp : SfInput) (st : State H) :
    (update_control E inp st).2.cell = st.cell ∧
    (update_control E inp st).2.udp_port = st.udp_port ∧
    (update_control E inp st).2.cfi = st.cfi ∧
    (update_control E inp st).2.nof_frames = st.nof_frames := by
  unfold update_control
  simp only []
  split_ifs
  · split
    · rename_i input _
      have h1 := update_radl_frame E (apply_command E input st)
      have h2 := apply_command_frame E input st
      exact ⟨h1.1.trans h2.1, h1.2.1.trans h2.2.1, h1.2.2.1.trans h2.2.2.1,
        h1.2.2.2.2.1.trans h2.2.2.2⟩
    · simp
  · simp
  · simp

theorem update_control_line {P H : Type} (E : Ext P H) (inp : SfInput) (st : State H)
    (line : List Nat) (hsel : inp.select_n = 1) (hline : inp.fgets_line = some line) :
    update_control E inp st = update_radl E (apply_command E line st) := by
  unfold update_control
  simp only [hsel, hline, if_true]

/-- C9, as stated, fails: on the start-up state (MCS index 12) a line that
holds only the terminator sets the MCS index to 0 and rebuilds the
allocation record. -/
theorem c9_counterexample :
    (sim_start 2 (-1)).st.mcs_idx = 12 ∧
    (update_control simExt (line_input [10]) (sim_start 2 (-1)).st).2.mcs_idx = 0 ∧
    (update_control simExt (line_input [10]) (sim_start 2 (-1)).st).2.ra_dl ≠
      (sim_start 2 (-1)).st.ra_dl := by
  decide

/-- C9, amended: a line that holds only the terminator is handled like any
other line that is not a command byte: update_control sets the MCS index
to 0, leaves center and width alone and calls update_radl, so its result is
the result of update_radl on the state with MCS index 0.  Only a poll that
reports no input, or fgets returning no line, leaves the state as it is. -/
theorem c9_empty_line_sets_mcs_zero {P H : Type} (E : Ext P H) (inp : SfInput)
    (st : State H) (hsel : inp.select_n = 1) (hline : inp.fgets_line = some [10]) :
    update_control E inp st = update_radl E { st with mcs_idx := 0 } ∧
    (update_control E inp st).2.mcs_idx = 0 ∧
    (update_control E inp st).2.prbset_orig = st.prbset_orig ∧
    (update_control E inp st).2.prbset_num = st.prbset_num ∧
    (∀ inp2 : SfInput,
      (inp2.select_n = 0 ∨ (inp2.select_n = 1 ∧ inp2.fgets_line = none)) →
      update_control E inp2 st = (0, st)) := by
  have h : update_control E inp st = update_radl E { st with mcs_idx := 0 } := by
    rw [update_control_line E inp st [10] hsel hline]
    rfl
  obtain ⟨_, _, _, hm, _, hn, ho⟩ := update_radl_frame E { st with mcs_idx := 0 }
  rw [h]
  refine ⟨rfl, hm, ho, hn, ?_⟩
  rintro inp2 (h0 | ⟨h1, h2⟩)
  · unfold update_control
    simp [h0]
  · unfold update_control
    simp [h1, h2]

/-- Witness of C9 (amended) on the start-up state of the simulated run. -/
theorem c9_empty_line_sets_mcs_zero_witness :
    ((line_input [10]).select_n = 1 ∧ (line_input [10]).fgets_line = some [10]) ∧
    (update_control simExt (line_input [10]) (sim_start 2 (-1)).st).2.mcs_idx = 0 :=
  ⟨⟨by decide, by decide⟩,
    (c9_empty_line_sets_mcs_zero simExt (line_input [10]) (sim_start 2 (-1)).st
      (by decide) (by decide)).2.1⟩

/-- C7, as stated, fails: on the start-up state the line "99" makes the
update fail (result -1), yet the allocation record now carries MCS index
99 and a zeroed modulation while the HARQ process still holds the
configuration of MCS index 12: the previous allocation is not kept. -/
theorem c7_counterexample :
    (update_control simExt (line_input [57, 57, 10]) (sim_start 2 (-1)).st).1 = -1 ∧
    (sim_start 2 (-1)).st.ra_dl.mcs_idx = 12 ∧
    (update_control simExt (line_input [57, 57, 10]) (sim_start 2 (-1)).st).2.ra_dl.mcs_idx
      = 99 ∧
    (update_control simExt (line_input [57, 57, 10]) (sim_start 2 (-1)).st).2.ra_dl ≠
      (sim_start 2 (-1)).st.ra_dl ∧
    (update_control simExt (line_input [57, 57, 10]) (sim_start 2 (-1)).st).2.harq_process =
      (sim_start 2 (-1)).st.harq_process := by
  decide

/-- C7, amended: update_radl rebuilds the allocation record in place.  After
every control update that reads a line, failing or not, the record agrees
with the parameters now in force: its MCS index is the current one, its
bitmask is prbset_to_bitmask of the current center and width, its
modulation and size are what ra_mcs_from_idx_dl wrote for the current
index into the zeroed record, and the other fields are zero.  The HARQ
process is what pdsch_harq_setup left when called on the previous HARQ
state with that modulation and with the resource blocks derived, by
ra_prb_get_dl and ra_prb_get_re_dl, from the new record (as it stands
before the modulation is written), and the update reports success exactly
when that set-up does.  Nothing of the previous record is kept or
restored. -/
theorem c7_record_rebuilt_in_place {P H : Type} (E : Ext P H) (inp : SfInput)
    (st : State H) (line : List Nat) (hsel : inp.select_n = 1)
    (hline : inp.fgets_line = some line) :
    (update_control E inp st).2.ra_dl =
      { ra_pdsch_zero with
        mcs_idx := (update_control E inp st).2.mcs_idx
        rbg_bitmask := prbset_to_bitmask E.shift_count
          (update_control E inp st).2.cell.nof_prb
          (update_control E inp st).2.prbset_orig (update_control E inp st).2.prbset_num
        mcs := (E.ra_mcs_from_idx_dl (update_control E inp st).2.mcs_idx
          (update_control E inp st).2.cell.nof_prb ra_pdsch_zero.mcs).2 } ∧
    (update_control E inp st).2.harq_process =
      (E.pdsch_harq_setup st.harq_process (update_control E inp st).2.ra_dl.mcs
        (E.ra_prb_get_re_dl
          (E.ra_prb_get_dl
            { (update_control E inp st).2.ra_dl with mcs := ra_pdsch_zero.mcs }
            (update_control E inp st).2.cell.nof_prb)
          (update_control E inp st).2.cell.nof_prb 1
          (if (update_control E inp st).2.cell.nof_prb < 10
            then (update_control E inp st).2.cfi + 1
            else (update_control E inp st).2.cfi))).2 ∧
    ((update_control E inp st).1 = 0 ↔
      (E.pdsch_harq_setup st.harq_process (update_control E inp st).2.ra_dl.mcs
        (E.ra_prb_get_re_dl
          (E.ra_prb_get_dl
            { (update_control E inp st).2.ra_dl with mcs := ra_pdsch_zero.mcs }
            (update_control E inp st).2.cell.nof_prb)
          (update_control E inp st).2.cell.nof_prb 1
          (if (update_control E inp st).2.cell.nof_prb < 10
            then (update_control E inp st).2.cfi + 1
            else (update_control E inp st).2.cfi))).1 = 0) := by
  rw [update_control_line E inp st line hsel hline]
  have hh : (apply_command E line st).harq_process = st.harq_process := by
    unfold apply_command
    simp only []
    split_ifs <;> rfl
  rw [← hh]
  generalize apply_command E line st = s1
  unfold update_radl
  simp only []
  by_cases hlt : s1.cell.nof_prb < 10
  · simp only [if_pos hlt]
    split_ifs with h2
    · exact ⟨rfl, rfl, ⟨fun h => absurd h (show ((-1 : Int) ≠ 0) by decide),
        fun h => absurd h h2⟩⟩
    · exact ⟨rfl, rfl, ⟨fun _ => not_not.mp h2, fun _ => rfl⟩⟩
  · simp only [if_neg hlt]
    split_ifs with h2
    · exact ⟨rfl, rfl, ⟨fun h => absurd h (show ((-1 : Int) ≠ 0) by decide),
        fun h => absurd h h2⟩⟩
    · exact ⟨rfl, rfl, ⟨fun _ => not_not.mp h2, fun _ => rfl⟩⟩

/-- Witness of C7 (amended): the width-increment byte on the start-up state
of the simulated run; the HARQ process is set up for the new bitmask 12. -/
theorem c7_record_rebuilt_in_place_witness :
    ((line_input [0x26, 10]).select_n = 1 ∧
      (line_input [0x26, 10]).fgets_line = some [0x26, 10]) ∧
    (update_control simExt (line_input [0x26, 10]) (sim_state 2 (-1))).2.ra_dl.rbg_bitmask
      = 12 ∧
    (update_control simExt (line_input [0x26, 10]) (sim_state 2 (-1))).2.harq_process =
      some ({ mod := 4, tbs := 624 }, (12, 2)) ∧
    (update_control simExt (line_input [0x26, 10]) (sim_state 2 (-1))).2.harq_process =
      (simExt.pdsch_harq_setup (sim_state 2 (-1)).harq_process
        (update_control simExt (line_input [0x26, 10]) (sim_state 2 (-1))).2.ra_dl.mcs
        (simExt.ra_prb_get_re_dl
          (simExt.ra_prb_get_dl
            { (update_control simExt (line_input [0x26, 10]) (sim_state 2 (-1))).2.ra_dl with
              mcs := ra_pdsch_zero.mcs }
            (update_control simExt (line_input [0x26, 10]) (sim_state 2 (-1))).2.cell.nof_prb)
          (update_control simExt (line_input [0x26, 10]) (sim_state 2 (-1))).2.cell.nof_prb 1
          (if (update_control simExt (line_input [0x26, 10])
              (sim_state 2 (-1))).2.cell.nof_prb < 10
            then (update_control simExt (line_input [0x26, 10]) (sim_state 2 (-1))).2.cfi + 1
            else (update_control simExt (line_input [0x26, 10])
              (sim_state 2 (-1))).2.cfi))).2 :=
  ⟨⟨by decide, by decide⟩, by decide, by decide,
    (c7_record_rebuilt_in_place simExt (line_input [0x26, 10]) (sim_state 2 (-1))
      [0x26, 10] (by decide) (by decide)).2.1⟩

/-! ## Theorems: one subframe -/

/-- What a completed subframe holds, in terms of the state after the
control update of the same subframe. -/
theorem subframe_some {P H : Type} (E : Ext P H) (inp : SfInput) (st st1 : State H)
    (sf_idx sfn : Nat) (r : Subframe H)
    (h : subframe E inp st sf_idx sfn = some (r, st1)) :
    r.sf_idx = sf_idx ∧ r.mib_sfn = sfn ∧ r.refsignal = true ∧ r.pcfich = some st.cfi ∧
    r.pss = decide (sf_idx = 0 ∨ sf_idx = 5) ∧
    r.sss = (if sf_idx = 0 then some 0 else if sf_idx = 5 then some 5 else none) ∧
    r.pbch = decide (sf_idx = 0) ∧
    r.ctrl_error = decide ((update_control E inp st).1 ≠ 0) ∧
    r.dci = (if sf_idx ≠ 0 ∧ present st.udp_port inp = true
      then some (update_control E inp st).2.ra_dl else none) ∧
    r.pdsch = (if sf_idx ≠ 0 ∧ present st.udp_port inp = true
      then some ((update_control E inp st).2.harq_process,
        (update_control E inp st).2.ra_dl.rv_idx) else none) ∧
    st1.nof_frames = st.nof_frames ∧ st1.udp_port = st.udp_port := by
  obtain ⟨_, hu, _, hn⟩ := update_control_frame E inp st
  unfold subframe at h
  simp only [hu] at h
  unfold present
  by_cases h0 : sf_idx = 0
  · subst h0
    simp at h
    obtain ⟨rfl, rfl⟩ := h
    simp [empty_grid, hu, hn]
    split_ifs <;> simp_all
  · by_cases hp : st.udp_port > 0
    · by_cases hr : inp.udpsource_read > 0
      · simp [h0, hp, hr] at h
        obtain ⟨hd, hs, rfl, rfl⟩ := h
        simp [empty_grid, hu, hn, h0, hp, hr]
        split_ifs <;> simp_all
      · by_cases hz : inp.udpsource_read = 0
        · simp [h0, hp, hz] at h
          obtain ⟨rfl, rfl⟩ := h
          simp [empty_grid, hu, hn, h0, hp, hz]
          split_ifs <;> simp_all
        · simp [h0, hp, hr, hz] at h
    · simp [h0, hp] at h
      obtain ⟨hd, hs, rfl, rfl⟩ := h
      simp [empty_grid, hu, hn, h0, hp]
      split_ifs <;> simp_all

/-- A subframe whose inputs carry no fatal event completes. -/
theorem subframe_benign {P H : Type} (E : Ext P H) (inp : SfInput) (st : State H)
    (sf_idx sfn : Nat) (hb : benign st.udp_port inp) :
    ∃ (r : Subframe H) (st1 : State H), subframe E inp st sf_idx sfn = some (r, st1) := by
  obtain ⟨_, hu, _, _⟩ := update_control_frame E inp st
  obtain ⟨hb1, hb2, hb3⟩ := hb
  unfold subframe
  simp only [hu]
  by_cases h0 : sf_idx = 0
  · simp [h0]
  · by_cases hp : st.udp_port > 0
    · have hge := hb1 hp
      by_cases hr : inp.udpsource_read > 0
      · simp [h0, hp, hr, hb2, hb3]
      · have hz : inp.udpsource_read = 0 := by omega
        simp [h0, hp, hz]
    · simp [h0, hp, hb2, hb3]

/-! ## Theorems: the loop nest -/

theorem more_frames_congr {H : Type} (m m1 : Machine H) (hnf : m1.nf = m.nf)
    (hst : m1.st.nof_frames = m.st.nof_frames) : more_frames m1 ↔ more_frames m := by
  unfold more_frames
  rw [hnf, hst]

theorem loop_inv_start {P H : Type} (E : Ext P H) (env : Nat → SfInput) (st0 : State H) :
    loop_inv E env st0 (loop_start st0) := by
  refine ⟨rfl, rfl, rfl, ?_, ?_, ?_⟩
  · intro n r h
    simp [loop_start] at h
  · intro h
    simp [loop_start] at h
  · intro _
    exact Or.inl ⟨0, rfl, rfl⟩

theorem loop_inv_step {P H : Type} (E : Ext P H) (env : Nat → SfInput) (st0 : State H)
    (m : Machine H) (hinv : loop_inv E env st0 m) : loop_inv E env st0 (step E env m) := by
  obtain ⟨hN, hU, hnf, hsink, hin, hout⟩ := hinv
  unfold step
  cases hpc : m.pc with
  | exited c =>
    simp only []
    exact ⟨hN, hU, hnf, hsink, hin, hout⟩
  | outer_test =>
    simp only []
    by_cases hmore : more_frames m
    · rw [if_pos hmore]
      refine ⟨hN, hU, hnf, hsink, ?_, ?_⟩
      · intro _
        refine ⟨Nat.zero_le _, fun _ => (more_frames_congr m _ rfl rfl).2 hmore, ?_⟩
        rcases hout hpc with ⟨F, hF, hs⟩ | hno
        · exact ⟨F, by simpa using hF, hs⟩
        · exact absurd hmore hno
      · intro h
        simp at h
    · rw [if_neg hmore]
      refine ⟨hN, hU, hnf, hsink, ?_, ?_⟩
      · intro h
        simp at h
      · intro h
        simp at h
  | inner_test =>
    simp only []
    obtain ⟨hle, hzero, F, hF, hsfn⟩ := hin hpc
    by_cases hc : m.sf_idx < NSUBFRAMES_X_FRAME ∧ more_frames m
    · rw [if_pos hc]
      have hlt : m.sf_idx < 10 := hc.1
      have hidx : m.nf.toNat = m.sink.length := by rw [hnf]; simp
      cases hsf : subframe E (env m.nf.toNat) m.st m.sf_idx m.sfn with
      | none =>
        simp only []
        refine ⟨hN, hU, hnf, hsink, ?_, ?_⟩
        · intro h
          simp at h
        · intro h
          simp at h
      | some p =>
        obtain ⟨sf, st1⟩ := p
        simp only []
        obtain ⟨_, _, _, _, _, _, _, _, _, _, hN1, hU1⟩ :=
          subframe_some E (env m.nf.toNat) m.st st1 m.sf_idx m.sfn sf hsf
        refine ⟨hN1.trans hN, hU1.trans hU, ?_, ?_, ?_, ?_⟩
        · simp only [List.length_append, List.length_singleton]
          rw [hnf]
          push_cast
          rfl
        · intro n r hr
          by_cases hn : n < m.sink.length
          · rw [List.getElem?_append_left hn] at hr
            exact hsink n r hr
          · have hge : m.sink.length ≤ n := Nat.le_of_not_lt hn
            rw [List.getElem?_append_right hge] at hr
            have hn0 : n - m.sink.length = 0 := by
              by_contra hne
              have : 1 ≤ n - m.sink.length := Nat.one_le_iff_ne_zero.mpr hne
              rw [List.getElem?_eq_none (by simpa using this)] at hr
              exact Option.noConfusion hr
            rw [hn0] at hr
            simp only [List.getElem?_cons_zero, Option.some.injEq] at hr
            subst hr
            have hn1 : n = m.sink.length := by omega
            have h1 : n % 10 = m.sf_idx := by omega
            have h2 : n / 10 % 1024 = m.sfn := by omega
            refine ⟨m.st, st1, hU, ?_⟩
            rw [h1, h2, hn1, ← hidx]
            exact hsf
        · intro _
          refine ⟨by simp only []; omega, fun h => by simp at h, F, ?_, hsfn⟩
          simp only [List.length_append, List.length_singleton]
          omega
        · intro h
          simp at h
    · rw [if_neg hc]
      refine ⟨hN, hU, hnf, hsink, ?_, ?_⟩
      · intro h
        simp at h
      · intro _
        by_cases hlt : m.sf_idx < 10
        · right
          intro hm
          exact hc ⟨hlt, (more_frames_congr _ m rfl rfl).1 hm⟩
        · left
          refine ⟨F + 1, ?_, ?_⟩
          · simp only []
            omega
          · simp only []
            omega

theorem loop_inv_run {P H : Type} (E : Ext P H) (env : Nat → SfInput) (st0 : State H) :
    ∀ (fuel : Nat) (m : Machine H), loop_inv E env st0 m →
      loop_inv E env st0 (run E env fuel m) := by
  intro fuel
  induction fuel with
  | zero => intro m h; exact h
  | succ k ih => intro m h; exact ih _ (loop_inv_step E env st0 m h)

/-- Every subframe in the sink of a run from the loop start is the result
of the loop body at its index, frame number and inputs. -/
theorem run_sink_produced {P H : Type} (E : Ext P H) (env : Nat → SfInput) (st0 : State H)
    (fuel n : Nat) (r : Subframe H)
    (h : (run E env fuel (loop_start st0)).sink[n]? = some r) :
    ∃ st st1 : State H, st.udp_port = st0.udp_port ∧
      subframe E (env n) st (n % 10) ((n / 10) % 1024) = some (r, st1) :=
  (loop_inv_run E env st0 fuel _ (loop_inv_start E env st0)).2.2.2.1 n r h

/-- C3: in every run from the loop start, with any frame count and any
inputs, the subframe number n (counting from 0) that reaches the sink was
processed with subframe index n mod 10 and its master information block
was built for system frame number (n div 10) mod 1024. -/
theorem c3_subframe_index_and_sfn {P H : Type} (E : Ext P H) (env : Nat → SfInput)
    (st0 : State H) (fuel n : Nat) (r : Subframe H)
    (h : (run E env fuel (loop_start st0)).sink[n]? = some r) :
    r.sf_idx = n % 10 ∧ r.mib_sfn = (n / 10) % 1024 := by
  obtain ⟨st, st1, _, hs⟩ := run_sink_produced E env st0 fuel n r h
  have hsome := subframe_some E (env n) st st1 (n % 10) ((n / 10) % 1024) r hs
  exact ⟨hsome.1, hsome.2.1⟩

/-- Witness of C3: subframe 12 of an unbounded quiet run. -/
theorem c3_subframe_index_and_sfn_witness :
    (run simExt (fun _ => quiet) 16 (loop_start (sim_state (-1) (-1)))).sink[12]? =
      some sim_subframe_12 ∧
    (sim_subframe_12.sf_idx = 12 % 10 ∧ sim_subframe_12.mib_sfn = (12 / 10) % 1024) :=
  ⟨by decide,
    c3_subframe_index_and_sfn simExt (fun _ => quiet) (sim_state (-1) (-1)) 16 12
      sim_subframe_12 (by decide)⟩

/-- C4: in every run from the loop start, the subframe number n that
reaches the sink has index s = n mod 10 and carries the synchronization
sequences iff s is 0 or 5, the broadcast channel iff s = 0, and the control
message and the shared channel iff s ≠ 0 and the data source reported a
block (a positive read on the network variant, always on the synthetic
one). -/
theorem c4_channels_per_subframe {P H : Type} (E : Ext P H) (env : Nat → SfInput)
    (st0 : State H) (fuel n : Nat) (r : Subframe H)
    (h : (run E env fuel (loop_start st0)).sink[n]? = some r) :
    r.sf_idx = n % 10 ∧
    r.pss = decide (n % 10 = 0 ∨ n % 10 = 5) ∧
    r.sss.isSome = decide (n % 10 = 0 ∨ n % 10 = 5) ∧
    r.pbch = decide (n % 10 = 0) ∧
    r.dci.isSome = (decide (n % 10 ≠ 0) && present st0.udp_port (env n)) ∧
    r.pdsch.isSome = (decide (n % 10 ≠ 0) && present st0.udp_port (env n)) := by
  obtain ⟨st, st1, hu, hs⟩ := run_sink_produced E env st0 fuel n r h
  obtain ⟨h1, _, _, _, h5, h6, h7, _, h9, h10, _, _⟩ :=
    subframe_some E (env n) st st1 (n % 10) ((n / 10) % 1024) r hs
  rw [hu] at h9 h10
  refine ⟨h1, h5, ?_, h7, ?_, ?_⟩
  · rw [h6]
    split_ifs <;> simp_all
  · rw [h9]
    split_ifs <;> simp_all
  · rw [h10]
    split_ifs <;> simp_all

/-- Witness of C4: subframe 5 of a run fed from the network in which no
datagram arrives carries the synchronization sequences and neither control
message nor shared channel. -/
theorem c4_channels_per_subframe_witness :
    (run simExt (fun _ => quiet) 8 (loop_start (sim_state (-1) 5000))).sink[5]? =
      some sim_subframe_5_no_data ∧
    (sim_subframe_5_no_data.pss = decide (5 % 10 = 0 ∨ 5 % 10 = 5) ∧
      sim_subframe_5_no_data.dci.isSome =
        (decide (5 % 10 ≠ 0) && present (sim_state (-1) 5000).udp_port quiet)) :=
  ⟨by decide,
    ⟨(c4_channels_per_subframe simExt (fun _ => quiet) (sim_state (-1) 5000) 8 5
        sim_subframe_5_no_data (by decide)).2.1,
      (c4_channels_per_subframe simExt (fun _ => quiet) (sim_state (-1) 5000) 8 5
        sim_subframe_5_no_data (by decide)).2.2.2.2.1⟩⟩

/-- C6, as stated, fails: a failing poll in subframe 0, and likewise a
rejected MCS index with a failing HARQ set-up in subframe 1, make
update_control return -1, yet the run with frame count 2 hands both
subframes to the sink and ends with exit(0); only the error message marks
the subframe. -/
theorem c6_counterexample :
    ((update_control simExt (poll_failure_in_subframe_0 0) (sim_state 2 (-1))).1 = -1 ∧
      (run simExt poll_failure_in_subframe_0 10 (sim_start 2 (-1))).pc = Pc.exited 0 ∧
      (run simExt poll_failure_in_subframe_0 10 (sim_start 2 (-1))).sink.map
        (fun r => r.ctrl_error) = [true, false]) ∧
    ((update_control simExt (invalid_mcs_in_subframe_1 1) (sim_state 2 (-1))).1 = -1 ∧
      (run simExt invalid_mcs_in_subframe_1 10 (sim_start 2 (-1))).pc = Pc.exited 0 ∧
      (run simExt invalid_mcs_in_subframe_1 10 (sim_start 2 (-1))).sink.map
        (fun r => r.ctrl_error) = [false, true]) := by
  decide

/-- C6, amended: when update_control fails during a subframe (a failing
poll, or a failing HARQ reconfiguration after a command) and no other fatal
event occurs (no read error on the socket, no encoder failure), the
failure is only reported: the subframe is completed and appended to the
sink with the error mark, nf and sf_idx advance and the loop goes on with
the next subframe. -/
theorem c6_control_failure_is_reported_only {P H : Type} (E : Ext P H)
    (env : Nat → SfInput) (m : Machine H) (hpc : m.pc = Pc.inner_test)
    (hc : m.sf_idx < NSUBFRAMES_X_FRAME ∧ more_frames m)
    (hfail : (update_control E (env m.nf.toNat) m.st).1 ≠ 0)
    (hben : benign m.st.udp_port (env m.nf.toNat)) :
    (step E env m).pc = Pc.inner_test ∧ (step E env m).nf = m.nf + 1 ∧
    (step E env m).sf_idx = m.sf_idx + 1 ∧
    ∃ r : Subframe H, (step E env m).sink = m.sink ++ [r] ∧ r.ctrl_error = true := by
  obtain ⟨r, st1, hs⟩ := subframe_benign E (env m.nf.toNat) m.st m.sf_idx m.sfn hben
  have hce := (subframe_some E (env m.nf.toNat) m.st st1 m.sf_idx m.sfn r hs).2.2.2.2.2.2.2.1
  unfold step
  simp only [hpc, if_pos hc, hs]
  refine ⟨trivial, trivial, trivial, r, rfl, ?_⟩
  rw [hce]
  exact decide_eq_true hfail

/-- Witness of C6 (amended): the failing poll in subframe 0 of the simulated
run with frame count 2. -/
theorem c6_control_failure_is_reported_only_witness :
    ((run simExt poll_failure_in_subframe_0 1 (sim_start 2 (-1))).pc = Pc.inner_test ∧
      (update_control simExt
        (poll_failure_in_subframe_0
          (run simExt poll_failure_in_subframe_0 1 (sim_start 2 (-1))).nf.toNat)
        (run simExt poll_failure_in_subframe_0 1 (sim_start 2 (-1))).st).1 ≠ 0) ∧
    (step simExt poll_failure_in_subframe_0
      (run simExt poll_failure_in_subframe_0 1 (sim_start 2 (-1)))).nf = 0 + 1 :=
  ⟨⟨by decide, by decide⟩,
    (c6_control_failure_is_reported_only simExt poll_failure_in_subframe_0
      (run simExt poll_failure_in_subframe_0 1 (sim_start 2 (-1))) (by decide) (by decide)
      (by decide) (by decide)).2.1⟩

theorem run_exited {P H : Type} (E : Ext P H) (env : Nat → SfInput) (c : Int) :
    ∀ (fuel : Nat) (m : Machine H), m.pc = Pc.exited c → run E env fuel m = m := by
  intro fuel
  induction fuel with
  | zero => intro m _; rfl
  | succ k ih =>
    intro m h
    have hs : step E env m = m := by
      unfold step
      simp only [h]
    show run E env k (step E env m) = m
    rw [hs]
    exact ih m h

/-- With frame count N and no fatal event in the first N subframes, one
move keeps the run on its way to exit(0) and lowers the bound on the moves
left. -/
theorem finite_step {P H : Type} (E : Ext P H) (env : Nat → SfInput) (st0 : State H)
    (N : Nat) (hN : st0.nof_frames = (N : Int))
    (hben : ∀ n, n < N → benign st0.udp_port (env n)) (m : Machine H)
    (hinv : loop_inv E env st0 m) (hle : m.nf ≤ (N : Int))
    (hex : ∀ c, m.pc = Pc.exited c → c = 0 ∧ m.nf = (N : Int)) :
    (step E env m).nf ≤ (N : Int) ∧
    (∀ c, (step E env m).pc = Pc.exited c → c = 0 ∧ (step E env m).nf = (N : Int)) ∧
    ((∀ c, m.pc ≠ Pc.exited c) → loop_variant N (step E env m) < loop_variant N m) := by
  obtain ⟨hNf, hU, hnf, _, hin, _⟩ := hinv
  have hmore : more_frames m ↔ m.nf < (N : Int) := by
    unfold more_frames
    rw [hNf, hN]
    constructor
    · rintro (h | h)
      · exact h
      · omega
    · intro h; exact Or.inl h
  have hnn : 0 ≤ m.nf := by rw [hnf]; exact Int.natCast_nonneg _
  unfold step
  cases hpc : m.pc with
  | exited c =>
    simp only []
    refine ⟨hle, ?_, ?_⟩
    · intro c1 h1
      exact hex c1 h1
    · intro h
      exact absurd rfl (h c)
  | outer_test =>
    simp only []
    by_cases hm : more_frames m
    · rw [if_pos hm]
      refine ⟨hle, ?_, ?_⟩
      · intro c h
        simp at h
      · intro _
        simp only [loop_variant, hpc, if_true]
        omega
    · rw [if_neg hm]
      refine ⟨hle, ?_, ?_⟩
      · intro c h
        simp only [Pc.exited.injEq] at h
        have : ¬ m.nf < (N : Int) := fun h1 => hm (hmore.2 h1)
        exact ⟨h.symm, by dsimp only; omega⟩
      · intro _
        simp only [loop_variant, hpc]
        omega
  | inner_test =>
    simp only []
    obtain ⟨_, hzero, _, _, _⟩ := hin hpc
    by_cases hc : m.sf_idx < NSUBFRAMES_X_FRAME ∧ more_frames m
    · rw [if_pos hc]
      have hlt : m.nf < (N : Int) := hmore.1 hc.2
      have hb : benign m.st.udp_port (env m.nf.toNat) := by
        rw [hU]
        exact hben _ (by omega)
      obtain ⟨r, st1, hs⟩ := subframe_benign E (env m.nf.toNat) m.st m.sf_idx m.sfn hb
      rw [hs]
      simp only []
      refine ⟨by omega, ?_, ?_⟩
      · intro c h
        exact Pc.noConfusion h
      · intro _
        simp only [loop_variant, hpc, Nat.add_one_ne_zero, if_false]
        split_ifs <;> omega
    · rw [if_neg hc]
      refine ⟨hle, ?_, ?_⟩
      · intro c h
        simp at h
      · intro _
        have hne : m.sf_idx ≠ 0 := by
          intro h0
          apply hc
          refine ⟨?_, hzero h0⟩
          rw [h0]
          decide
        simp only [loop_variant, hpc, if_neg hne]
        omega

theorem finite_run {P H : Type} (E : Ext P H) (env : Nat → SfInput) (st0 : State H)
    (N : Nat) (hN : st0.nof_frames = (N : Int))
    (hben : ∀ n, n < N → benign st0.udp_port (env n)) :
    ∀ (fuel : Nat) (m : Machine H), loop_inv E env st0 m → m.nf ≤ (N : Int) →
      (∀ c, m.pc = Pc.exited c → c = 0 ∧ m.nf = (N : Int)) → loop_variant N m ≤ fuel →
      (run E env fuel m).pc = Pc.exited 0 ∧ (run E env fuel m).sink.length = N := by
  intro fuel
  induction fuel with
  | zero =>
    intro m hinv hle hex hv
    have hv0 : loop_variant N m = 0 := Nat.le_zero.mp hv
    have hnf := hinv.2.2.1
    cases hpc : m.pc with
    | exited c =>
      obtain ⟨rfl, hn⟩ := hex c hpc
      refine ⟨hpc, ?_⟩
      show m.sink.length = N
      omega
    | outer_test =>
      simp [loop_variant, hpc] at hv0
    | inner_test =>
      obtain ⟨_, hzero, _, _, _⟩ := hinv.2.2.2.2.1 hpc
      simp only [loop_variant, hpc] at hv0
      by_cases h0 : m.sf_idx = 0
      · have hm := hzero h0
        unfold more_frames at hm
        rw [hinv.1, hN] at hm
        rw [if_pos h0] at hv0
        omega
      · rw [if_neg h0] at hv0
        omega
  | succ k ih =>
    intro m hinv hle hex hv
    obtain ⟨h1, h2, h3⟩ := finite_step E env st0 N hN hben m hinv hle hex
    have hinv1 := loop_inv_step E env st0 m hinv
    show (run E env k (step E env m)).pc = Pc.exited 0 ∧
      (run E env k (step E env m)).sink.length = N
    by_cases hx : ∃ c, m.pc = Pc.exited c
    · obtain ⟨c, hc⟩ := hx
      have hs : step E env m = m := by
        unfold step
        simp only [hc]
      rw [hs]
      apply ih m hinv hle hex
      simp [loop_variant, hc]
    · have hx1 : ∀ c, m.pc ≠ Pc.exited c := fun c hc => hx ⟨c, hc⟩
      have := h3 hx1
      exact ih _ hinv1 h1 h2 (by omega)

/-- C2, as stated, fails: with frame count 1 and synthetic data the loop
hands exactly one subframe to the sink and ends, not ten. -/
theorem c2_counterexample :
    (sim_start 1 (-1)).st.nof_frames = 1 ∧
    (run simExt (fun _ => quiet) 50 (sim_start 1 (-1))).pc = Pc.exited 0 ∧
    (run simExt (fun _ => quiet) 50 (sim_start 1 (-1))).sink.length = 1 ∧
    (run simExt (fun _ => quiet) 50 (sim_start 1 (-1))).sink.length ≠ 10 * 1 := by
  decide

/-- C2, amended: the counter nf advances once per subframe, so for every
frame count N ≥ 0 and every data source, when no fatal event occurs in the
first N subframes (no read error on the socket, no encoder failure), the
loop hands exactly N subframes to the sink and then ends with exit(0);
3 * N + 1 moves of the loop nest are enough.  In particular frame count 1
gives exactly one subframe. -/
theorem c2_emits_nof_frames_subframes {P H : Type} (E : Ext P H) (env : Nat → SfInput)
    (st0 : State H) (N fuel : Nat) (hN : st0.nof_frames = (N : Int))
    (hben : ∀ n, n < N → benign st0.udp_port (env n)) (hfuel : 3 * N + 1 ≤ fuel) :
    (run E env fuel (loop_start st0)).pc = Pc.exited 0 ∧
    (run E env fuel (loop_start st0)).sink.length = N := by
  apply finite_run E env st0 N hN hben fuel _ (loop_inv_start E env st0)
  · show (0 : Int) ≤ N
    exact Int.natCast_nonneg _
  · intro c h
    exact Pc.noConfusion h
  · show 3 * (N - (0 : Int).toNat) + 1 ≤ fuel
    simpa using hfuel

/-- Witness of C2 (amended): frame count 25 on the simulated run. -/
theorem c2_emits_nof_frames_subframes_witness :
    ((sim_state 25 (-1)).nof_frames = ((25 : Nat) : Int) ∧
      (∀ n, n < 25 → benign (sim_state 25 (-1)).udp_port ((fun _ => quiet) n)) ∧
      3 * 25 + 1 ≤ 76) ∧
    (run simExt (fun _ => quiet) 76 (loop_start (sim_state 25 (-1)))).sink.length = 25 :=
  ⟨⟨by decide, fun _ _ => (by decide : benign (sim_state 25 (-1)).udp_port quiet),
      by decide⟩,
    (c2_emits_nof_frames_subframes simExt (fun _ => quiet) (sim_state 25 (-1)) 25 76
      (by decide) (fun _ _ => (by decide : benign (sim_state 25 (-1)).udp_port quiet))
      (by decide)).2⟩

end PdschEnodeb
